import Mathlib

set_option maxRecDepth 16000

/-!
Shallow embedding of the si5351 clock-generator driver (src/si5351.c) together
with proofs about its frequency-planning algorithms, its configuration passes
and its batch semantics.

Modelling conventions:
* C `float` / `double` arithmetic is modelled by exact rational arithmetic
  (`ℚ`); the places where this matters are noted next to each definition.
* 32-bit unsigned arithmetic is modelled on `ℕ`, with an explicit `% 2 ^ 32`
  wherever a wrap-around is actually possible for some input.
* The C `while` loops are modelled with an explicit structural fuel argument;
  for each loop the fuel is provably sufficient (the loop guard is reached
  first), so the models agree with the C loops on all inputs that reach them.
* `Rat.sub` and friends are `@[irreducible]` in the ambient library, so the
  embedding builds rationals with `mkRat` and the kernel-computable helpers
  `ratSub` / `fabs` below; they are proved equal to `Sub.sub` and `|·|`.
-/

/-! ## Definitions: the embedded driver -/

/-- Exact rational subtraction, written out on numerators and denominators so
that it evaluates inside the kernel.  `ratSub_eq` proves it equal to `x - y`. -/
def ratSub (x y : ℚ) : ℚ := mkRat (x.num * y.den - y.num * x.den) (x.den * y.den)

/-- Model of the C `fabs` on exact rationals.  `fabs_eq` proves it equal
to `|q|`. -/
def fabs (q : ℚ) : ℚ := if q < 0 then -q else q

/-- Stern–Brocot refinement loop of `farey_fraction` (si5351.c, lines 28-42).
State is the bracketing pair `a/b ≤ f < c/d`.  The C `while (1)` loop
terminates because `b + d` strictly increases each iteration; `fuel` is a
structural bound that never runs out while `D < b + d + fuel` (see
`fareyLoop_inv`). -/
def fareyLoop (f : ℚ) (D : ℕ) : ℕ → ℕ → ℕ → ℕ → ℕ → (ℕ × ℕ) × (ℕ × ℕ)
  | 0, a, b, c, d => ((a, b), (c, d))
  | fuel+1, a, b, c, d =>
    if b + d > D then ((a, b), (c, d))
    else if f < mkRat (a + c : ℕ) (b + d) then
      fareyLoop f D fuel a b (a + c) (b + d)
    else
      fareyLoop f D fuel (a + c) (b + d) c d

/-- `farey_fraction` (si5351.c, lines 19-51): closest fractional approximation
to `f` with denominator at most `max_denominator`.  The C float comparisons
are modelled exactly on `ℚ`.  The result is the `(num, den)` pair stored
through the two out-parameters. -/
def farey_fraction (f : ℚ) (max_denominator : ℕ) : ℕ × ℕ :=
  if f ≤ 0 ∨ 1 ≤ f ∨ max_denominator ≤ 1 then (0, 1)
  else
    let r := fareyLoop f max_denominator max_denominator 0 1 1 1
    if fabs (ratSub f (mkRat (r.1.1 : ℕ) r.1.2)) <
        fabs (ratSub f (mkRat (r.2.1 : ℕ) r.2.2)) then
      r.1
    else
      r.2

/-- Invariants carried by the Stern–Brocot loop; `r` is the final
`((a, b), (c, d))` bracketing state. -/
def FareyInv (f : ℚ) (D : ℕ) (r : (ℕ × ℕ) × (ℕ × ℕ)) : Prop :=
  0 < r.1.2 ∧ 0 < r.2.2 ∧ r.1.2 ≤ D ∧ r.2.2 ≤ D ∧
  r.2.1 * r.1.2 = r.1.1 * r.2.2 + 1 ∧
  (r.1.1 : ℚ) / (r.1.2 : ℚ) ≤ f ∧ f < (r.2.1 : ℚ) / (r.2.2 : ℚ) ∧
  D < r.1.2 + r.2.2 ∧ r.1.1 ≤ r.1.2 ∧ r.2.1 ≤ r.2.2

/-- `si5351_calc_multisynth` (si5351.c, lines 53-69), as a pure function of
the two frequencies (the state is only read for logging there).  `p1` is
computed with the C `uint32_t` wrap-around (`(mult << 7) + q - 512` can go
below zero when `mult < 4`); `p2 = (num << 7) - den*q` never wraps because
`den * (128*num/den) ≤ 128*num`, so plain `ℕ` subtraction is exact.  The C
float quotient `((float)f1 / f2) - pll_mult` is modelled exactly on `ℚ`. -/
def si5351_calc_multisynth (f1 f2 : ℕ) : ℕ × ℕ × ℕ :=
  let pll_mult := f1 / f2
  let nd := farey_fraction (ratSub (mkRat (f1 : ℕ) f2) (mkRat (pll_mult : ℕ) 1)) 1048575
  let pll_num := nd.1
  let pll_den := nd.2
  (((pll_mult <<< 7) % 4294967296 + 128 * pll_num / pll_den + (4294967296 - 512)) % 4294967296,
   (pll_num <<< 7) - pll_den * (128 * pll_num / pll_den),
   pll_den)

/-- StageDividerCalculator as the spec words it (§4.2): `mult = target div
reference`, `(num, den)` from the rational approximator on the fractional
remainder with maximum denominator 1048575, then the packed parameters
`p1 = (mult << 7) + ⌊128·num/den⌋ − 512` (a 32-bit value, hence reduced
`% 2^32`), `p2 = (num << 7) − den·⌊128·num/den⌋` and `p3 = den`, the first
two written as integer formulas. -/
def specStageDivider (target reference : ℕ) : ℕ × ℕ × ℕ :=
  let mult := target / reference
  let frac := ratSub (mkRat (target : ℕ) reference) (mkRat (mult : ℕ) 1)
  let nd := farey_fraction frac 1048575
  let num := nd.1
  let den := nd.2
  let q : ℤ := ((128 * num / den : ℕ) : ℤ)
  ((((mult : ℤ) * 2 ^ 7 + q - 512) % 2 ^ 32).toNat,
   ((num : ℤ) * 2 ^ 7 - (den : ℤ) * q).toNat,
   den)

/-- A register write `(register, value)`; the value is truncated to a byte
exactly where the C code converts to the `uint8_t` parameter. -/
abbrev RegWrite := ℕ × ℕ

/-- Truncation to `uint8_t` (C implicit conversion at the write callback). -/
def u8 (v : ℕ) : ℕ := v % 256

/-- Validation failures of a configuration pass, one per distinct diagnostic
in `si5351_configure` (the C function only returns `-1`; the spec's error
taxonomy distinguishes them, and each corresponds to exactly one `return -1`
site). -/
inductive ConfigError where
  | clkPllOutOfRange
  | frequencyOutOfRange
  | omdOutOfRange
  | vcoOutOfRange
  | pllOutOfRange
deriving DecidableEq

/-- Errors surfaced by the public mutating operations. -/
inductive ApiError where
  | outputIndexOutOfRange
  | clockIndexOutOfRange
  | cfg (e : ConfigError)
deriving DecidableEq

/-- The `si5351_t` device state (si5351.h, lines 70-85).  The C fixed-size
arrays are lists (length 8, or 2 for the per-PLL arrays, in every state the
API constructs); array reads are `getD · 0`.  The injected callbacks are not
part of the model: register writes are returned as lists instead. -/
structure Si5351 where
  crystal_freq : ℕ
  crystal_load : ℕ
  freq : List ℕ
  phase : List ℕ
  pll : List ℕ
  clk_pll : List ℕ
  clk_dis : List ℕ
  clk_invert : List Bool
  clk_drive : List ℕ
  vco_freq : List ℕ
  config : Bool
deriving DecidableEq

/-- Disable-state byte for outputs `base..base+3` (si5351.c, lines 80-83). -/
def disByte (l : List ℕ) (base : ℕ) : ℕ :=
  (l.getD (base + 3) 0 <<< 6) ||| (l.getD (base + 2) 0 <<< 4) |||
    (l.getD (base + 1) 0 <<< 2) ||| l.getD base 0

/-- The writes every configuration pass emits before PLL planning
(si5351.c, lines 79-93): disable-state registers, global output disable,
power-down of all clock control registers, crystal load capacitance. -/
def preambleWrites (s : Si5351) : List RegWrite :=
  [(24, u8 (disByte s.clk_dis 0)), (25, u8 (disByte s.clk_dis 4)), (3, u8 0xFF)] ++
    (List.range 8).map (fun i => (16 + i, u8 0x80)) ++
    [(183, u8 (0x48 ||| s.crystal_load))]

/-- PLL input pre-scale doubling (si5351.c, lines 111-114): double `freq`
until it reaches 500 kHz.  The C loop has no explicit bound but is only
entered with `freq ≥ 8000` (line 104), so at most six doublings occur and
fuel 64 is never exhausted.  (`vco_ri` is incremented in C but never used.) -/
def pllPrescale : ℕ → ℕ → ℕ
  | 0, f => f
  | fuel+1, f => if f < 500000 then pllPrescale fuel (f * 2) else f

/-- The eight PLL parameter register writes for stage `i`
(si5351.c, lines 133-140); `p` is `(pll[0], pll[1], pll[2])`. -/
def pllRegWrites (i : ℕ) (p : ℕ × ℕ × ℕ) : List RegWrite :=
  [(26 + i * 8, u8 ((p.2.2 >>> 8) &&& 0xFF)),
   (26 + i * 8 + 1, u8 (p.2.2 &&& 0xFF)),
   (26 + i * 8 + 2, u8 ((p.1 >>> 16) &&& 0x03)),
   (26 + i * 8 + 3, u8 ((p.1 >>> 8) &&& 0xFF)),
   (26 + i * 8 + 4, u8 (p.1 &&& 0xFF)),
   (26 + i * 8 + 5, u8 ((((p.2.2 >>> 16) &&& 0x0F) <<< 4) ||| ((p.2.1 >>> 16) &&& 0x0F))),
   (26 + i * 8 + 6, u8 ((p.2.1 >>> 8) &&& 0xFF)),
   (26 + i * 8 + 7, u8 (p.2.1 &&& 0xFF))]

/-- The PLL pre-scale divider `(uint32_t)((600000000.0/freq) + 3) & ~1`
(si5351.c, line 116).  The C expression truncates an exact double quotient;
for every `freq ≥ 500000` (guaranteed by the preceding pre-scale loop) the
double rounding never crosses an integer, so the truncation equals natural
division, which is how it is modelled; `& ~1` on `uint32_t` is
`&&& 0xFFFFFFFE`. -/
def pllOmd (f : ℕ) : ℕ := (600000000 / f + 3) &&& 0xFFFFFFFE

/-- One iteration of the PLL-planning loop (si5351.c, lines 96-141): validate
the stage's master output index and frequency, pre-scale, compute the even
OMD divider and the VCO frequency with their range checks, then the packed
parameters and the eight PLL register writes.  On success it returns the
writes and the VCO frequency stored into `vco_freq[i]`. -/
def pllStage (s : Si5351) (i : ℕ) : Except ConfigError (List RegWrite × ℕ) :=
  if s.clk_pll.getD i 0 ≥ 8 then .error .clkPllOutOfRange
  else
    let freq := s.freq.getD (s.clk_pll.getD i 0) 0
    if freq < 8000 ∨ freq > 150000000 then .error .frequencyOutOfRange
    else
      let f := pllPrescale 64 freq
      let omd_div := pllOmd f
      if omd_div < 8 ∨ omd_div > 2047 then .error .omdOutOfRange
      else
        let vco_freq := f * omd_div
        if vco_freq < 600000000 ∨ vco_freq > 900000000 then .error .vcoOutOfRange
        else .ok (pllRegWrites i (si5351_calc_multisynth vco_freq s.crystal_freq), vco_freq)

/-- Per-output pre-scale loop (si5351.c, lines 162-166): count doublings
while the frequency is below 500 kHz, capped at 128; state is
`(omd_div, freq)`.  Fuel 128 is exact: after 128 iterations the C guard
`omd_div < 128` is false as well. -/
def outPrescale : ℕ → ℕ × ℕ → ℕ × ℕ
  | 0, st => st
  | fuel+1, (omd_div, f) =>
    if f < 500000 ∧ omd_div < 128 then outPrescale fuel (omd_div + 1, f * 2)
    else (omd_div, f)

/-- The eight multisynth register writes for output `i`
(si5351.c, lines 172-179). -/
def synthWrites (i : ℕ) (omd_div : ℕ) (p : ℕ × ℕ × ℕ) : List RegWrite :=
  [(42 + i * 8, u8 ((p.2.2 >>> 8) &&& 0xFF)),
   (42 + i * 8 + 1, u8 (p.2.2 &&& 0xFF)),
   (42 + i * 8 + 2, u8 ((omd_div <<< 4) ||| ((p.1 >>> 16) &&& 0x03))),
   (42 + i * 8 + 3, u8 ((p.1 >>> 8) &&& 0xFF)),
   (42 + i * 8 + 4, u8 (p.1 &&& 0xFF)),
   (42 + i * 8 + 5, u8 (((p.2.2 >>> 12) &&& 0xF0) ||| ((p.2.1 >>> 16) &&& 0x0F))),
   (42 + i * 8 + 6, u8 ((p.2.1 >>> 8) &&& 0xFF)),
   (42 + i * 8 + 7, u8 (p.2.1 &&& 0xFF))]

/-- Control byte for clock `i` (si5351.c, lines 185-186). -/
def ctrlByte (s : Si5351) (i : ℕ) : ℕ :=
  ((s.pll.getD i 0 <<< 5) &&& 0x20) |||
    (if s.clk_invert.getD i false then 0x10 else 0) ||| 0x0C |||
    (s.clk_drive.getD i 0 &&& 0x03)

/-- One iteration of the output-configuration loop (si5351.c, lines 144-187):
skip silent outputs, validate the PLL assignment and the frequency, compute
the pre-scale and the multisynth parameters, then emit the synth registers,
the phase register and the control register. -/
def outputStage (s : Si5351) (i : ℕ) : Except ConfigError (List RegWrite) :=
  if s.freq.getD i 0 = 0 then .ok []
  else if s.pll.getD i 0 ≥ 2 then .error .pllOutOfRange
  else
    let vco_freq := s.vco_freq.getD (s.pll.getD i 0) 0
    if s.freq.getD i 0 < 8000 ∨ s.freq.getD i 0 > 150000000 then .error .frequencyOutOfRange
    else
      let od := outPrescale 128 (0, s.freq.getD i 0)
      let p := si5351_calc_multisynth vco_freq od.2
      .ok (synthWrites i od.1 p ++
        [(165 + i, u8 (s.phase.getD i 0 &&& 0x7F)), (16 + i, u8 (ctrlByte s i))])

/-- The output loop over a list of output indices, accumulating writes and
stopping at the first failure (writes of earlier outputs are kept, as in C). -/
def outputsLoop (s : Si5351) : List ℕ → List RegWrite × Option ConfigError
  | [] => ([], none)
  | i :: rest =>
    match outputStage s i with
    | .error e => ([], some e)
    | .ok ws =>
      let r := outputsLoop s rest
      (ws ++ r.1, r.2)

/-- Final output-enable byte (si5351.c, lines 190-193): bit `i` set exactly
when output `i` has frequency zero. -/
def oeByte (s : Si5351) : ℕ :=
  (List.range 8).foldl (fun oe i => if s.freq.getD i 0 = 0 then oe ||| (1 <<< i) else oe) 0

/-- `si5351_configure` (si5351.c, lines 72-197): one full configuration pass.
Returns the resulting state (the pass stores the computed VCO frequencies),
the emitted register writes in order, and the validation failure if any;
writes already emitted before a failure are kept, exactly as in C. -/
def si5351_configure (s : Si5351) : Si5351 × List RegWrite × Option ConfigError :=
  if s.config = false then (s, [], none)
  else
    match pllStage s 0 with
    | .error e => (s, preambleWrites s, some e)
    | .ok (w0, v0) =>
      let s0 := {s with vco_freq := s.vco_freq.set 0 v0}
      match pllStage s0 1 with
      | .error e => (s0, preambleWrites s ++ w0, some e)
      | .ok (w1, v1) =>
        let s1 := {s0 with vco_freq := s0.vco_freq.set 1 v1}
        let outs := outputsLoop s1 (List.range 8)
        match outs.2 with
        | some e => (s1, preambleWrites s ++ w0 ++ w1 ++ outs.1, some e)
        | none => (s1, preambleWrites s ++ w0 ++ w1 ++ outs.1 ++ [(3, u8 (oeByte s1))], none)

/-- `si5351_init` (si5351.c, lines 209-228): zero the state, populate the
crystal parameters, enable auto-apply and run a first configuration pass
(whose return value the C code discards). -/
def si5351_init (cf cl : ℕ) : Si5351 × List RegWrite × Option ConfigError :=
  let s : Si5351 :=
    { crystal_freq := cf, crystal_load := cl,
      freq := List.replicate 8 0, phase := List.replicate 8 0,
      pll := List.replicate 8 0, clk_pll := List.replicate 2 0,
      clk_dis := List.replicate 8 0, clk_invert := List.replicate 8 false,
      clk_drive := List.replicate 8 0, vco_freq := List.replicate 2 0,
      config := true }
  si5351_configure s

/-- `si5351_set` (si5351.c, lines 241-259): validate the output index, store
the request in the state, record the PLL master designation, then run a
configuration pass and return its result. -/
def si5351_set (s : Si5351) (output pllArg freqArg phaseArg : ℕ)
    (invert pll_master : Bool) : Si5351 × List RegWrite × Option ApiError :=
  if output ≥ 8 then (s, [], some .outputIndexOutOfRange)
  else
    let s1 := {s with freq := s.freq.set output freqArg,
                      phase := s.phase.set output phaseArg,
                      clk_invert := s.clk_invert.set output invert,
                      pll := s.pll.set output pllArg}
    let s2 := if pll_master then {s1 with clk_pll := s1.clk_pll.set pllArg output} else s1
    let r := si5351_configure s2
    (r.1, r.2.1, r.2.2.map ApiError.cfg)

/-- `si5351_start_batch` (si5351.c, lines 262-265). -/
def si5351_start_batch (s : Si5351) : Si5351 := {s with config := false}

/-- `si5351_write_batch` (si5351.c, lines 268-272): re-enable auto-apply and
run one configuration pass.  The C function is `void`: the pass result is
discarded and only the state and the writes remain. -/
def si5351_write_batch (s : Si5351) : Si5351 × List RegWrite :=
  let r := si5351_configure {s with config := true}
  (r.1, r.2.1)

/-- `si5351_set_disabled` (si5351.c, lines 275-291).  `clock` is a C `int`
(`-1` = all outputs).  For every in-range `clock` the function runs a
configuration pass, discards its result and returns 0 (modelled `none`). -/
def si5351_set_disabled (s : Si5351) (clock : ℤ) (ds : ℕ) :
    Si5351 × List RegWrite × Option ApiError :=
  if clock = -1 then
    let s1 := {s with clk_dis := List.replicate 8 ds}
    let r := si5351_configure s1
    (r.1, r.2.1, none)
  else if 0 ≤ clock ∧ clock < 8 then
    let s1 := {s with clk_dis := s.clk_dis.set clock.toNat ds}
    let r := si5351_configure s1
    (r.1, r.2.1, none)
  else (s, [], some .clockIndexOutOfRange)

/-- Well-formedness: the array fields have their C sizes. -/
def WF (s : Si5351) : Prop :=
  s.freq.length = 8 ∧ s.phase.length = 8 ∧ s.pll.length = 8 ∧ s.clk_pll.length = 2 ∧
  s.clk_dis.length = 8 ∧ s.clk_invert.length = 8 ∧ s.clk_drive.length = 8 ∧
  s.vco_freq.length = 2

instance (s : Si5351) : Decidable (WF s) := by
  unfold WF
  infer_instance

/-- States reachable through the public API from an `si5351_init`. -/
inductive Reachable : Si5351 → Prop where
  | init (cf cl : ℕ) : Reachable (si5351_init cf cl).1
  | set (s : Si5351) (out pllv fr ph : ℕ) (inv m : Bool) :
      Reachable s → Reachable (si5351_set s out pllv fr ph inv m).1
  | set_disabled (s : Si5351) (clock : ℤ) (ds : ℕ) :
      Reachable s → Reachable (si5351_set_disabled s clock ds).1
  | start_batch (s : Si5351) : Reachable s → Reachable (si5351_start_batch s)
  | write_batch (s : Si5351) : Reachable s → Reachable (si5351_write_batch s).1

/-- Rounding up to the nearest even number.  Modelled from the spec: §4.3
step 4 describes the divider as `round_up_to_even(600_000_000 / f + 3)`;
the code has no such helper (its expression is `pllOmd`), so the spec's
wording is modelled here for comparison. -/
def roundUpToEven (n : ℕ) : ℕ := if n % 2 = 0 then n else n + 1

/-- Scenario state: device initialised with a 25 MHz crystal and the 8 pF
load code, then output 0 set to 510001 Hz as master for PLL A (that call
succeeds: OMD = 1178, VCO = 600781178 Hz). -/
def demoState : Si5351 :=
  (si5351_set (si5351_init 25000000 128).1 0 0 510001 0 false true).1

/-! ## Theorems -/

theorem ratSub_eq (x y : ℚ) : ratSub x y = x - y := by
  have hx : (x.den : ℚ) ≠ 0 := by exact_mod_cast x.den_nz
  have hy : (y.den : ℚ) ≠ 0 := by exact_mod_cast y.den_nz
  rw [ratSub, Rat.mkRat_eq_divInt, Rat.divInt_eq_div]
  push_cast
  conv_rhs => rw [← Rat.num_div_den x, ← Rat.num_div_den y]
  rw [div_sub_div _ _ hx hy]
  ring_nf

theorem fabs_eq (q : ℚ) : fabs q = |q| := by
  rw [fabs]
  rcases abs_cases q with ⟨h1, _⟩ | ⟨h1, h2⟩
  · rw [h1, if_neg (by linarith)]
  · rw [h1, if_pos h2]

example : farey_fraction (mkRat 3 10) 10 = (3, 10) := by decide

example : farey_fraction (mkRat 7 12) 4 = (2, 3) := by decide

example : farey_fraction 0 10 = (0, 1) := by decide

/-- `mkRat` on natural-number data is the same rational as the cast
division. -/
theorem mkRat_natCast (m d : ℕ) : (mkRat (m : ℕ) d : ℚ) = (m : ℚ) / (d : ℚ) := by
  rw [Rat.mkRat_eq_divInt, Rat.divInt_eq_div]
  norm_num

theorem fareyLoop_inv (f : ℚ) (D : ℕ) :
    ∀ fuel a b c d, 0 < b → 0 < d → b ≤ D → d ≤ D →
      c * b = a * d + 1 →
      (a : ℚ) / (b : ℚ) ≤ f → f < (c : ℚ) / (d : ℚ) →
      D < b + d + fuel →
      a ≤ b → c ≤ d →
      FareyInv f D (fareyLoop f D fuel a b c d) := by
  intro fuel
  induction fuel with
  | zero =>
    intro a b c d hb hd hbD hdD hdet hlo hhi hfuel hab hcd
    rw [fareyLoop]
    exact ⟨hb, hd, hbD, hdD, hdet, hlo, hhi, show D < b + d by omega,
      show a ≤ b from hab, show c ≤ d from hcd⟩
  | succ fuel ih =>
    intro a b c d hb hd hbD hdD hdet hlo hhi hfuel hab hcd
    rw [fareyLoop]
    by_cases hguard : b + d > D
    · rw [if_pos hguard]
      exact ⟨hb, hd, hbD, hdD, hdet, hlo, hhi, hguard, hab, hcd⟩
    · rw [if_neg hguard]
      have hbdD : b + d ≤ D := by omega
      by_cases hcmp : f < mkRat ((a + c : ℕ) : ℤ) (b + d)
      · rw [if_pos hcmp]
        rw [mkRat_natCast] at hcmp
        refine ih a b (a + c) (b + d) hb (by omega) hbD hbdD ?_ hlo ?_ (by omega)
          hab (by omega)
        · calc (a + c) * b = a * b + c * b := by ring
            _ = a * b + (a * d + 1) := by rw [hdet]
            _ = a * (b + d) + 1 := by ring
        · exact_mod_cast hcmp
      · rw [if_neg hcmp]
        rw [mkRat_natCast] at hcmp
        push_neg at hcmp
        refine ih (a + c) (b + d) c d (by omega) hd hbdD hdD ?_ ?_ hhi (by omega)
          (by omega) hcd
        · calc c * (b + d) = c * b + c * d := by ring
            _ = (a * d + 1) + c * d := by rw [hdet]
            _ = (a + c) * d + 1 := by ring
        · exact_mod_cast hcmp

/-- If `a/b < p/q < c/d` and `c*b = a*d + 1` then `q ≥ b + d`: no fraction
strictly inside a Stern–Brocot bracket has a smaller denominator than the
mediant. -/
theorem between_denoms (a b c d : ℕ) (p : ℤ) (q : ℕ)
    (hb : 0 < b) (hd : 0 < d) (hq : 0 < q)
    (hdet : c * b = a * d + 1)
    (h1 : (a : ℚ) / (b : ℚ) < (p : ℚ) / (q : ℚ))
    (h2 : (p : ℚ) / (q : ℚ) < (c : ℚ) / (d : ℚ)) :
    b + d ≤ q := by
  have hb' : (0 : ℚ) < (b : ℚ) := by exact_mod_cast hb
  have hd' : (0 : ℚ) < (d : ℚ) := by exact_mod_cast hd
  have hq' : (0 : ℚ) < (q : ℚ) := by exact_mod_cast hq
  have ha : (a : ℤ) * q < p * b := by
    have := (div_lt_div_iff hb' hq').1 h1
    exact_mod_cast this
  have hc : (p : ℤ) * d < c * q := by
    have := (div_lt_div_iff hq' hd').1 h2
    exact_mod_cast this
  have e1 : 1 ≤ (p : ℤ) * b - a * q := by linarith
  have e2 : 1 ≤ (c : ℤ) * q - p * d := by linarith
  have hdet' : (c : ℤ) * b = a * d + 1 := by exact_mod_cast hdet
  have key : (q : ℤ) = b * (c * q - p * d) + d * (p * b - a * q) := by
    linear_combination (-(q : ℤ)) * hdet'
  have hbz : (0 : ℤ) ≤ b := by positivity
  have hdz : (0 : ℤ) ≤ d := by positivity
  have t1 : (b : ℤ) * 1 ≤ b * (c * q - p * d) := mul_le_mul_of_nonneg_left e2 hbz
  have t2 : (d : ℤ) * 1 ≤ d * (p * b - a * q) := mul_le_mul_of_nonneg_left e1 hdz
  have : (b : ℤ) + d ≤ q := by linarith
  exact_mod_cast this

/-- `farey_fraction` rewritten in terms of the final loop state and `|·|`,
for nondegenerate input. -/
theorem farey_fraction_eq (f : ℚ) (D : ℕ) (hg : ¬(f ≤ 0 ∨ 1 ≤ f ∨ D ≤ 1)) :
    farey_fraction f D =
      if |f - ((fareyLoop f D D 0 1 1 1).1.1 : ℚ) / ((fareyLoop f D D 0 1 1 1).1.2 : ℚ)| <
          |f - ((fareyLoop f D D 0 1 1 1).2.1 : ℚ) / ((fareyLoop f D D 0 1 1 1).2.2 : ℚ)|
      then (fareyLoop f D D 0 1 1 1).1 else (fareyLoop f D D 0 1 1 1).2 := by
  rw [farey_fraction, if_neg hg]
  simp only [fabs_eq, ratSub_eq, mkRat_natCast]

/-- Main optimality property of the rational approximator: for `0 < f < 1`
and `D ≥ 2` the returned fraction has positive denominator at most `D` and
minimal absolute error among all fractions with denominator at most `D`. -/
theorem farey_best (f : ℚ) (D : ℕ) (h0 : 0 < f) (h1 : f < 1) (hD : 2 ≤ D) :
    0 < (farey_fraction f D).2 ∧ (farey_fraction f D).2 ≤ D ∧
    ∀ (p : ℤ) (q : ℕ), 0 < q → q ≤ D →
      |f - ((farey_fraction f D).1 : ℚ) / ((farey_fraction f D).2 : ℚ)| ≤
        |f - (p : ℚ) / (q : ℚ)| := by
  have hg : ¬(f ≤ 0 ∨ 1 ≤ f ∨ D ≤ 1) := by push_neg; exact ⟨h0, h1, by omega⟩
  have heq := farey_fraction_eq f D hg
  set r := fareyLoop f D D 0 1 1 1 with hr
  have inv : FareyInv f D r := fareyLoop_inv f D D 0 1 1 1 (by norm_num) (by norm_num)
    (by omega) (by omega) (by norm_num) (by norm_num; exact h0.le)
    (by norm_num; exact h1) (by omega) (by omega) (by omega)
  obtain ⟨hB, hDd, hBD, hDdD, hdet, hlo, hhi, hsum, hab, hcd⟩ := inv
  have key : ∀ (p : ℤ) (q : ℕ), 0 < q → q ≤ D →
      min |f - (r.1.1 : ℚ) / (r.1.2 : ℚ)| |f - (r.2.1 : ℚ) / (r.2.2 : ℚ)| ≤
        |f - (p : ℚ) / (q : ℚ)| := by
    intro p q hq hqD
    rcases le_or_lt ((p : ℚ) / (q : ℚ)) ((r.1.1 : ℚ) / (r.1.2 : ℚ)) with hpa | hpa
    · calc min |f - (r.1.1 : ℚ) / (r.1.2 : ℚ)| |f - (r.2.1 : ℚ) / (r.2.2 : ℚ)| ≤
            |f - (r.1.1 : ℚ) / (r.1.2 : ℚ)| := min_le_left _ _
        _ = f - (r.1.1 : ℚ) / (r.1.2 : ℚ) := abs_of_nonneg (by linarith)
        _ ≤ f - (p : ℚ) / (q : ℚ) := by linarith
        _ = |f - (p : ℚ) / (q : ℚ)| := (abs_of_nonneg (by linarith)).symm
    · rcases le_or_lt ((r.2.1 : ℚ) / (r.2.2 : ℚ)) ((p : ℚ) / (q : ℚ)) with hcp | hcp
      · calc min |f - (r.1.1 : ℚ) / (r.1.2 : ℚ)| |f - (r.2.1 : ℚ) / (r.2.2 : ℚ)| ≤
              |f - (r.2.1 : ℚ) / (r.2.2 : ℚ)| := min_le_right _ _
          _ = (r.2.1 : ℚ) / (r.2.2 : ℚ) - f := by rw [abs_sub_comm]; exact abs_of_nonneg (by linarith)
          _ ≤ (p : ℚ) / (q : ℚ) - f := by linarith
          _ = |f - (p : ℚ) / (q : ℚ)| := by rw [abs_sub_comm]; exact (abs_of_nonneg (by linarith)).symm
      · exfalso
        have := between_denoms r.1.1 r.1.2 r.2.1 r.2.2 p q hB hDd hq hdet hpa hcp
        omega
  rcases lt_or_le |f - (r.1.1 : ℚ) / (r.1.2 : ℚ)| |f - (r.2.1 : ℚ) / (r.2.2 : ℚ)|
    with hcmp | hcmp
  · rw [heq, if_pos hcmp]
    refine ⟨hB, hBD, ?_⟩
    intro p q hq hqD
    have := key p q hq hqD
    rwa [min_eq_left hcmp.le] at this
  · rw [heq, if_neg (not_lt.2 hcmp)]
    refine ⟨hDd, hDdD, ?_⟩
    intro p q hq hqD
    have := key p q hq hqD
    rwa [min_eq_right hcmp] at this

/-- For every input (including the degenerate guard cases) the approximator
returns `num ≤ den`, `0 < den` and `den ≤ max D 1`. -/
theorem farey_fraction_bounds (f : ℚ) (D : ℕ) :
    (farey_fraction f D).1 ≤ (farey_fraction f D).2 ∧
    0 < (farey_fraction f D).2 ∧ (farey_fraction f D).2 ≤ max D 1 := by
  by_cases hg : f ≤ 0 ∨ 1 ≤ f ∨ D ≤ 1
  · rw [farey_fraction, if_pos hg]
    refine ⟨by norm_num, by norm_num, ?_⟩
    have : 1 ≤ max D 1 := le_max_right _ _
    simpa using this
  · have heq := farey_fraction_eq f D hg
    have hg' := hg
    push_neg at hg'
    obtain ⟨h0', h1', hD⟩ := hg'
    have inv := fareyLoop_inv f D D 0 1 1 1 (by norm_num) (by norm_num)
      (by omega) (by omega) (by norm_num) (by norm_num; exact h0'.le)
      (by norm_num; exact h1') (by omega) (by omega) (by omega)
    obtain ⟨hB, hDd, hBD, hDdD, _, _, _, _, hab, hcd⟩ := inv
    rw [heq]
    split
    · exact ⟨hab, hB, le_trans hBD (le_max_left _ _)⟩
    · exact ⟨hcd, hDd, le_trans hDdD (le_max_left _ _)⟩

theorem getD_set_self (l : List ℕ) (i v : ℕ) (h : i < l.length) :
    (l.set i v).getD i 0 = v := by
  rw [List.getD_eq_getElem?_getD, List.getElem?_set_self (by simpa using h),
    Option.getD_some]

theorem getD_set_self_bool (l : List Bool) (i : ℕ) (v : Bool) (h : i < l.length) :
    (l.set i v).getD i false = v := by
  rw [List.getD_eq_getElem?_getD, List.getElem?_set_self (by simpa using h),
    Option.getD_some]

theorem getD_replicate_zero (n i : ℕ) : (List.replicate n (0 : ℕ)).getD i 0 = 0 := by
  rw [List.getD_eq_getElem?_getD]
  exact List.getElem?_getD_replicate_default_eq (d := 0) n i

/-- The PLL pre-scale result is at least 500 kHz whenever the fuel suffices. -/
theorem pllPrescale_ge : ∀ fuel f, 0 < f → 500000 ≤ f * 2 ^ fuel →
    500000 ≤ pllPrescale fuel f := by
  intro fuel
  induction fuel with
  | zero =>
    intro f hf h
    rw [pllPrescale]
    simpa using h
  | succ fuel ih =>
    intro f hf h
    rw [pllPrescale]
    split
    · refine ih (f * 2) (by omega) ?_
      have e : f * 2 * 2 ^ fuel = f * 2 ^ (fuel + 1) := by ring
      rw [e]
      exact h
    · omega

/-- For every valid master frequency the pre-scaled value is ≥ 500 kHz. -/
theorem pllPrescale_ge_of_freq (f : ℕ) (h : 8000 ≤ f) :
    500000 ≤ pllPrescale 64 f := by
  refine pllPrescale_ge 64 f (by omega) ?_
  have h1 : 8000 * 2 ^ 64 ≤ f * 2 ^ 64 := Nat.mul_le_mul_right _ h
  have h2 : (500000 : ℕ) ≤ 8000 * 2 ^ 64 := by norm_num
  omega

theorem u8_and3 (x : ℕ) : u8 x &&& 3 = x &&& 3 := by
  have h1 := Nat.and_pow_two_sub_one_eq_mod (u8 x) 2
  have h2 := Nat.and_pow_two_sub_one_eq_mod x 2
  norm_num at h1 h2
  rw [h1, h2, u8]
  omega

theorem and127_eq_mod (x : ℕ) : x &&& 0x7F = x % 128 := by
  have := Nat.and_pow_two_sub_one_eq_mod x 7
  norm_num at this
  exact this

/-- A configuration pass only stores computed VCO frequencies; every other
state field comes back unchanged. -/
theorem configure_fields (s : Si5351) :
    (si5351_configure s).1.crystal_freq = s.crystal_freq ∧
    (si5351_configure s).1.crystal_load = s.crystal_load ∧
    (si5351_configure s).1.freq = s.freq ∧
    (si5351_configure s).1.phase = s.phase ∧
    (si5351_configure s).1.pll = s.pll ∧
    (si5351_configure s).1.clk_pll = s.clk_pll ∧
    (si5351_configure s).1.clk_dis = s.clk_dis ∧
    (si5351_configure s).1.clk_invert = s.clk_invert ∧
    (si5351_configure s).1.clk_drive = s.clk_drive ∧
    (si5351_configure s).1.config = s.config := by
  simp only [si5351_configure]
  repeat' split
  all_goals exact ⟨rfl, rfl, rfl, rfl, rfl, rfl, rfl, rfl, rfl, rfl⟩

theorem configure_vco_len (s : Si5351) :
    (si5351_configure s).1.vco_freq.length = s.vco_freq.length := by
  simp only [si5351_configure]
  repeat' split
  all_goals simp

theorem configure_WF (s : Si5351) (h : WF s) : WF (si5351_configure s).1 := by
  obtain ⟨h1, h2, h3, h4, h5, h6, h7, h8⟩ := h
  obtain ⟨_, _, c3, c4, c5, c6, c7, c8, c9, _⟩ := configure_fields s
  refine ⟨?_, ?_, ?_, ?_, ?_, ?_, ?_, ?_⟩
  · rw [c3]; exact h1
  · rw [c4]; exact h2
  · rw [c5]; exact h3
  · rw [c6]; exact h4
  · rw [c7]; exact h5
  · rw [c8]; exact h6
  · rw [c9]; exact h7
  · rw [configure_vco_len]; exact h8

theorem reachable_WF (s : Si5351) (h : Reachable s) : WF s := by
  induction h with
  | init cf cl =>
    rw [si5351_init]
    exact configure_WF _ (by constructor <;> simp [WF])
  | set s out pllv fr ph inv m hs ih =>
    rw [si5351_set]
    split
    · exact ih
    · obtain ⟨h1, h2, h3, h4, h5, h6, h7, h8⟩ := ih
      apply configure_WF
      split <;> exact ⟨by simpa using h1, by simpa using h2, by simpa using h3,
        by simpa using h4, by simpa using h5, by simpa using h6, by simpa using h7,
        by simpa using h8⟩
  | set_disabled s clock ds hs ih =>
    rw [si5351_set_disabled]
    obtain ⟨h1, h2, h3, h4, h5, h6, h7, h8⟩ := ih
    split
    · exact configure_WF _ ⟨by simpa using h1, by simpa using h2, by simpa using h3,
        by simpa using h4, by simp, by simpa using h6, by simpa using h7,
        by simpa using h8⟩
    · split
      · exact configure_WF _ ⟨by simpa using h1, by simpa using h2, by simpa using h3,
          by simpa using h4, by simpa using h5, by simpa using h6, by simpa using h7,
          by simpa using h8⟩
      · exact ⟨h1, h2, h3, h4, h5, h6, h7, h8⟩
  | start_batch s hs ih =>
    obtain ⟨h1, h2, h3, h4, h5, h6, h7, h8⟩ := ih
    exact ⟨by simpa using h1, by simpa using h2, by simpa using h3, by simpa using h4,
      by simpa using h5, by simpa using h6, by simpa using h7, by simpa using h8⟩
  | write_batch s hs ih =>
    obtain ⟨h1, h2, h3, h4, h5, h6, h7, h8⟩ := ih
    rw [si5351_write_batch]
    exact configure_WF _ ⟨by simpa using h1, by simpa using h2, by simpa using h3,
      by simpa using h4, by simpa using h5, by simpa using h6, by simpa using h7,
      by simpa using h8⟩

/-- Clearing the low bit of a (small enough) value rounds it down to even. -/
theorem land_even (t : ℕ) (ht : t < 2 ^ 31) : t &&& 0xFFFFFFFE = 2 * (t / 2) := by
  have h2 : (t &&& 0xFFFFFFFE) % 2 = 0 := by
    rcases Nat.mod_two_eq_zero_or_one (t &&& 0xFFFFFFFE) with h | h
    · exact h
    · exfalso
      have := (Nat.and_mod_two_eq_one (a := t) (b := 0xFFFFFFFE)).1 h
      omega
  have hdiv : (t &&& 0xFFFFFFFE) / 2 = t / 2 := by
    have h1 := Nat.and_div_two (a := t) (b := 0xFFFFFFFE)
    norm_num at h1
    rw [h1]
    have h3 : t / 2 &&& 2 ^ 31 - 1 = t / 2 % 2 ^ 31 := Nat.and_pow_two_sub_one_eq_mod (t / 2) 31
    have h4 : (2 : ℕ) ^ 31 - 1 = 2147483647 := by norm_num
    rw [h4] at h3
    rw [h3]
    exact Nat.mod_eq_of_lt (by omega)
  omega

/-- For every pre-scaled frequency the code's OMD divider is
`600000000 div f + 3` rounded **down** to even. -/
theorem pllOmd_eq (f : ℕ) (h : 500000 ≤ f) :
    pllOmd f = 2 * ((600000000 / f + 3) / 2) := by
  have hd : 600000000 / f ≤ 1200 :=
    le_trans (Nat.div_le_div_left h (by norm_num)) (by norm_num)
  exact land_even _ (by omega)

/-- With a valid master output whose frequency is in range, the PLL-planning
step fails with the OMD diagnostic exactly when the code's divider leaves
`[8, 2047]`. -/
theorem pllStage_omd_iff (s : Si5351) (i : ℕ)
    (hm : s.clk_pll.getD i 0 < 8)
    (hlo : 8000 ≤ s.freq.getD (s.clk_pll.getD i 0) 0)
    (hhi : s.freq.getD (s.clk_pll.getD i 0) 0 ≤ 150000000) :
    pllStage s i = .error .omdOutOfRange ↔
      (pllOmd (pllPrescale 64 (s.freq.getD (s.clk_pll.getD i 0) 0)) < 8 ∨
        pllOmd (pllPrescale 64 (s.freq.getD (s.clk_pll.getD i 0) 0)) > 2047) := by
  simp only [pllStage]
  rw [if_neg (by omega), if_neg (by omega)]
  constructor
  · intro h
    by_contra hc
    rw [if_neg hc] at h
    split at h <;> simp at h
  · intro h
    rw [if_pos h]

/-- The code's packed multisynth parameters are exactly the spec's
StageDividerCalculator formulas evaluated in 32-bit arithmetic. -/
theorem calc_multisynth_eq_spec (f1 f2 : ℕ) :
    si5351_calc_multisynth f1 f2 = specStageDivider f1 f2 := by
  simp only [si5351_calc_multisynth, specStageDivider, Prod.mk.injEq]
  set nd := farey_fraction (ratSub (mkRat (f1 : ℕ) f2) (mkRat ((f1 / f2 : ℕ) : ℕ) 1)) 1048575
    with hnd
  have hle : nd.2 * (128 * nd.1 / nd.2) ≤ 128 * nd.1 := by
    rw [Nat.mul_comm]
    exact Nat.div_mul_le_self _ _
  have h7n : (2 : ℕ) ^ 7 = 128 := by norm_num
  have h7z : (2 : ℤ) ^ 7 = 128 := by norm_num
  refine ⟨?_, ?_, trivial⟩
  · rw [Nat.shiftLeft_eq, h7n, h7z]
    generalize f1 / f2 = m
    generalize 128 * nd.1 / nd.2 = q
    omega
  · rw [Nat.shiftLeft_eq, h7n, h7z]
    generalize hq : 128 * nd.1 / nd.2 = q at hle ⊢
    omega

example : (si5351_set (si5351_init 25000000 128).1 0 0 510001 0 false true).2.2 = none := by
  decide

theorem preamble_mem (s : Si5351) (w : RegWrite) (hw : w ∈ preambleWrites s) :
    w.1 = 24 ∨ w.1 = 25 ∨ w.1 = 3 ∨ w.1 = 183 ∨
      (16 ≤ w.1 ∧ w.1 ≤ 23 ∧ w.2 = 128) := by
  simp only [preambleWrites, List.mem_append, List.mem_cons, List.not_mem_nil,
    or_false, List.mem_map, List.mem_range] at hw
  rcases hw with ((h | h | h) | ⟨i, hi, h⟩) | h
  · subst h; left; rfl
  · subst h; right; left; rfl
  · subst h; right; right; left; rfl
  · right; right; right; right
    subst h
    exact ⟨by dsimp only; omega, by dsimp only; omega, rfl⟩
  · subst h; right; right; right; left; rfl

theorem pllRegWrites_reg (i : ℕ) (p : ℕ × ℕ × ℕ) (w : RegWrite)
    (hw : w ∈ pllRegWrites i p) : 26 + i * 8 ≤ w.1 ∧ w.1 ≤ 33 + i * 8 := by
  simp only [pllRegWrites, List.mem_cons, List.not_mem_nil, or_false] at hw
  rcases hw with h | h | h | h | h | h | h | h <;> subst h <;>
    exact ⟨by dsimp only; omega, by dsimp only; omega⟩

theorem pllStage_ok_shape (s : Si5351) (i : ℕ) (ws : List RegWrite) (v : ℕ)
    (h : pllStage s i = .ok (ws, v)) : ∃ p, ws = pllRegWrites i p := by
  simp only [pllStage] at h
  split at h
  · exact Except.noConfusion h
  · split at h
    · exact Except.noConfusion h
    · split at h
      · exact Except.noConfusion h
      · split at h
        · exact Except.noConfusion h
        · rw [Except.ok.injEq, Prod.mk.injEq] at h
          exact ⟨_, h.1.symm⟩

theorem outputStage_ok_mem (s : Si5351) (i : ℕ) (ws : List RegWrite) (w : RegWrite)
    (h : outputStage s i = .ok ws) (hw : w ∈ ws) :
    (42 + i * 8 ≤ w.1 ∧ w.1 ≤ 49 + i * 8) ∨
    (w.1 = 165 + i ∧ w.2 = u8 (s.phase.getD i 0 &&& 0x7F)) ∨
    (w.1 = 16 + i ∧ w.2 = u8 (ctrlByte s i) ∧ s.pll.getD i 0 < 2) := by
  simp only [outputStage] at h
  split at h
  · rw [Except.ok.injEq] at h
    subst h
    cases hw
  · split at h
    · exact Except.noConfusion h
    · rename_i hpll
      split at h
      · exact Except.noConfusion h
      · rw [Except.ok.injEq] at h
        subst h
        rw [List.mem_append] at hw
        rcases hw with hw | hw
        · left
          simp only [synthWrites, List.mem_cons, List.not_mem_nil, or_false] at hw
          rcases hw with h | h | h | h | h | h | h | h <;> subst h <;>
            exact ⟨by dsimp only; omega, by dsimp only; omega⟩
        · right
          simp only [List.mem_cons, List.not_mem_nil, or_false] at hw
          rcases hw with h | h
          · left; subst h; exact ⟨rfl, rfl⟩
          · right; subst h; exact ⟨rfl, rfl, by omega⟩

theorem outputsLoop_mem (s : Si5351) (l : List ℕ) (w : RegWrite)
    (hw : w ∈ (outputsLoop s l).1) :
    ∃ i ∈ l, ∃ ws, outputStage s i = .ok ws ∧ w ∈ ws := by
  induction l with
  | nil => simp [outputsLoop] at hw
  | cons i rest ih =>
    rw [outputsLoop] at hw
    rcases hst : outputStage s i with e | ws
    · rw [hst] at hw
      simp at hw
    · rw [hst] at hw
      simp only at hw
      rw [List.mem_append] at hw
      rcases hw with hw | hw
      · exact ⟨i, List.mem_cons_self i rest, ws, hst, hw⟩
      · obtain ⟨j, hj, ws', h1, h2⟩ := ih hw
        exact ⟨j, List.mem_cons_of_mem _ hj, ws', h1, h2⟩

theorem ctrlByte_and3 (s : Si5351) (i : ℕ) (hp : s.pll.getD i 0 < 2)
    (hd : s.clk_drive.getD i 0 = 0) : ctrlByte s i &&& 3 = 0 := by
  rw [ctrlByte, hd]
  rcases (by omega : s.pll.getD i 0 = 0 ∨ s.pll.getD i 0 = 1) with h | h <;> rw [h] <;>
    cases hb : s.clk_invert.getD i false <;> decide

/-- Every write a configuration pass emits to a control register
(16-23) has its two drive bits clear, provided the state's drive fields are
all zero. -/
theorem configure_ctrl_writes (s : Si5351) (hdrive : ∀ i, s.clk_drive.getD i 0 = 0) :
    ∀ w ∈ (si5351_configure s).2.1, 16 ≤ w.1 → w.1 ≤ 23 → w.2 &&& 0x03 = 0 := by
  intro w hw h16 h23
  have hpre : w ∈ preambleWrites s → w.2 &&& 0x03 = 0 := by
    intro hp
    rcases preamble_mem s w hp with h | h | h | h | ⟨_, _, h⟩
    · omega
    · omega
    · omega
    · omega
    · rw [h]; decide
  simp only [si5351_configure] at hw
  split at hw
  · cases hw
  · split at hw
    · exact hpre hw
    · rename_i r0 w0 v0 heq0
      split at hw
      · rw [List.mem_append] at hw
        rcases hw with hw | hw
        · exact hpre hw
        · obtain ⟨p, rfl⟩ := pllStage_ok_shape _ _ _ _ heq0
          have := pllRegWrites_reg 0 p w hw
          omega
      · rename_i r1 w1 v1 heq1
        split at hw
        · simp only [List.mem_append] at hw
          rcases hw with ((hw | hw) | hw) | hw
          · exact hpre hw
          · obtain ⟨p, rfl⟩ := pllStage_ok_shape _ _ _ _ heq0
            have := pllRegWrites_reg 0 p w hw
            omega
          · obtain ⟨p, rfl⟩ := pllStage_ok_shape _ _ _ _ heq1
            have := pllRegWrites_reg 1 p w hw
            omega
          · obtain ⟨i, _, ws, hst, hmem⟩ := outputsLoop_mem _ _ w hw
            rcases outputStage_ok_mem _ _ _ _ hst hmem with h | ⟨h1, _⟩ | ⟨h1, h2, h3⟩
            · omega
            · omega
            · rw [h2, u8_and3]
              exact ctrlByte_and3 _ i h3 (hdrive i)
        · simp only [List.mem_append] at hw
          rcases hw with (((hw | hw) | hw) | hw) | hw
          · exact hpre hw
          · obtain ⟨p, rfl⟩ := pllStage_ok_shape _ _ _ _ heq0
            have := pllRegWrites_reg 0 p w hw
            omega
          · obtain ⟨p, rfl⟩ := pllStage_ok_shape _ _ _ _ heq1
            have := pllRegWrites_reg 1 p w hw
            omega
          · obtain ⟨i, _, ws, hst, hmem⟩ := outputsLoop_mem _ _ w hw
            rcases outputStage_ok_mem _ _ _ _ hst hmem with h | ⟨h1, _⟩ | ⟨h1, h2, h3⟩
            · omega
            · omega
            · rw [h2, u8_and3]
              exact ctrlByte_and3 _ i h3 (hdrive i)
          · simp only [List.mem_cons, List.not_mem_nil, or_false] at hw
            subst hw
            omega

/-- Every write a configuration pass emits to a phase register (165-172)
carries the stored phase of that output reduced modulo 128. -/
theorem configure_phase_writes (s : Si5351) :
    ∀ w ∈ (si5351_configure s).2.1, 165 ≤ w.1 → w.1 ≤ 172 →
      w.2 = s.phase.getD (w.1 - 165) 0 % 128 := by
  intro w hw h165 h172
  have hpre : w ∈ preambleWrites s → False := by
    intro hp
    rcases preamble_mem s w hp with h | h | h | h | ⟨h1, h2, _⟩ <;> omega
  have hout : ∀ t : Si5351, t.phase = s.phase → ∀ i, i < 8 → ∀ ws,
      outputStage t i = .ok ws → w ∈ ws →
      w.2 = s.phase.getD (w.1 - 165) 0 % 128 := by
    intro t ht i hi ws hst hmem
    rcases outputStage_ok_mem _ _ _ _ hst hmem with h | ⟨h1, h2⟩ | ⟨h1, _, _⟩
    · omega
    · have hi' : w.1 - 165 = i := by omega
      rw [hi', h2, ht]
      have hb : s.phase.getD i 0 &&& 0x7F ≤ 127 := by
        have := Nat.and_le_right (n := s.phase.getD i 0) (m := 0x7F)
        omega
      rw [u8, Nat.mod_eq_of_lt (by omega), and127_eq_mod]
    · omega
  simp only [si5351_configure] at hw
  split at hw
  · cases hw
  · split at hw
    · exact absurd hw hpre
    · rename_i r0 w0 v0 heq0
      split at hw
      · rw [List.mem_append] at hw
        rcases hw with hw | hw
        · exact absurd hw hpre
        · obtain ⟨p, rfl⟩ := pllStage_ok_shape _ _ _ _ heq0
          have := pllRegWrites_reg 0 p w hw
          omega
      · rename_i r1 w1 v1 heq1
        split at hw
        · simp only [List.mem_append] at hw
          rcases hw with ((hw | hw) | hw) | hw
          · exact absurd hw hpre
          · obtain ⟨p, rfl⟩ := pllStage_ok_shape _ _ _ _ heq0
            have := pllRegWrites_reg 0 p w hw
            omega
          · obtain ⟨p, rfl⟩ := pllStage_ok_shape _ _ _ _ heq1
            have := pllRegWrites_reg 1 p w hw
            omega
          · obtain ⟨i, hi, ws, hst, hmem⟩ := outputsLoop_mem _ _ w hw
            rw [List.mem_range] at hi
            refine hout _ ?_ i hi ws hst hmem
            rfl
        · simp only [List.mem_append] at hw
          rcases hw with (((hw | hw) | hw) | hw) | hw
          · exact absurd hw hpre
          · obtain ⟨p, rfl⟩ := pllStage_ok_shape _ _ _ _ heq0
            have := pllRegWrites_reg 0 p w hw
            omega
          · obtain ⟨p, rfl⟩ := pllStage_ok_shape _ _ _ _ heq1
            have := pllRegWrites_reg 1 p w hw
            omega
          · obtain ⟨i, hi, ws, hst, hmem⟩ := outputsLoop_mem _ _ w hw
            rw [List.mem_range] at hi
            refine hout _ ?_ i hi ws hst hmem
            rfl
          · simp only [List.mem_cons, List.not_mem_nil, or_false] at hw
            subst hw
            omega

theorem set_clk_drive (s : Si5351) (out pllv fr ph : ℕ) (inv m : Bool) :
    (si5351_set s out pllv fr ph inv m).1.clk_drive = s.clk_drive := by
  simp only [si5351_set]
  split
  · rfl
  · refine ((configure_fields _).2.2.2.2.2.2.2.2.1).trans ?_
    split <;> rfl

theorem set_disabled_clk_drive (s : Si5351) (clock : ℤ) (ds : ℕ) :
    (si5351_set_disabled s clock ds).1.clk_drive = s.clk_drive := by
  simp only [si5351_set_disabled]
  split
  · exact (configure_fields _).2.2.2.2.2.2.2.2.1
  · split
    · exact (configure_fields _).2.2.2.2.2.2.2.2.1
    · rfl

theorem write_batch_clk_drive (s : Si5351) :
    (si5351_write_batch s).1.clk_drive = s.clk_drive := by
  simp only [si5351_write_batch]
  exact (configure_fields _).2.2.2.2.2.2.2.2.1

/-- In every reachable state the drive-strength fields are the zeroed
array `si5351_init` installs: no public operation writes to them. -/
theorem reachable_clk_drive (s : Si5351) (h : Reachable s) :
    s.clk_drive = List.replicate 8 0 := by
  induction h with
  | init cf cl => exact ((configure_fields _).2.2.2.2.2.2.2.2.1).trans rfl
  | set s out pllv fr ph inv m hs ih => rw [set_clk_drive]; exact ih
  | set_disabled s clock ds hs ih => rw [set_disabled_clk_drive]; exact ih
  | start_batch s hs ih => exact ih
  | write_batch s hs ih => rw [write_batch_clk_drive]; exact ih

theorem configure_config_false (s : Si5351) (h : s.config = false) :
    si5351_configure s = (s, [], none) := by
  rw [si5351_configure, if_pos h]

/-- Effect of a valid `si5351_set` on the state fields. -/
theorem set_state_fields (s : Si5351) (out pllv fr ph : ℕ) (inv m : Bool)
    (hout : out < 8) :
    (si5351_set s out pllv fr ph inv m).1.freq = s.freq.set out fr ∧
    (si5351_set s out pllv fr ph inv m).1.phase = s.phase.set out ph ∧
    (si5351_set s out pllv fr ph inv m).1.pll = s.pll.set out pllv ∧
    (si5351_set s out pllv fr ph inv m).1.clk_invert = s.clk_invert.set out inv ∧
    (si5351_set s out pllv fr ph inv m).1.clk_pll =
      (if m then s.clk_pll.set pllv out else s.clk_pll) ∧
    (si5351_set s out pllv fr ph inv m).1.config = s.config := by
  rw [si5351_set, if_neg (by omega : ¬out ≥ 8)]
  cases m <;>
    exact ⟨(configure_fields _).2.2.1, (configure_fields _).2.2.2.1,
      (configure_fields _).2.2.2.2.1, (configure_fields _).2.2.2.2.2.2.2.1,
      (configure_fields _).2.2.2.2.2.1, (configure_fields _).2.2.2.2.2.2.2.2.2⟩

theorem set_batch_empty (s : Si5351) (out pllv fr ph : ℕ) (inv m : Bool)
    (hcfg : s.config = false) (hout : out < 8) :
    (si5351_set s out pllv fr ph inv m).2.1 = [] ∧
    (si5351_set s out pllv fr ph inv m).2.2 = none := by
  rw [si5351_set, if_neg (by omega : ¬out ≥ 8)]
  dsimp only
  rw [configure_config_false _ (by cases m <;> exact hcfg)]
  exact ⟨rfl, rfl⟩

theorem set_disabled_batch (s : Si5351) (clock : ℤ) (ds : ℕ)
    (hcfg : s.config = false)
    (hclock : clock = -1 ∨ (0 ≤ clock ∧ clock < 8)) :
    (si5351_set_disabled s clock ds).2.1 = [] ∧
    (si5351_set_disabled s clock ds).1.clk_dis =
      (if clock = -1 then List.replicate 8 ds else s.clk_dis.set clock.toNat ds) := by
  rcases hclock with rfl | ⟨hge, hlt⟩
  · rw [si5351_set_disabled, if_pos rfl, if_pos rfl]
    dsimp only
    rw [configure_config_false _ (by exact hcfg)]
    exact ⟨rfl, rfl⟩
  · have hne : ¬clock = -1 := by omega
    rw [si5351_set_disabled, if_neg hne, if_pos ⟨hge, hlt⟩, if_neg hne]
    dsimp only
    rw [configure_config_false _ (by exact hcfg)]
    exact ⟨rfl, rfl⟩

/-- C1: for every `f` with `0 < f < 1` and every maximum denominator
`D ≥ 2`, `farey_fraction` returns a fraction `n/d` with `1 ≤ d ≤ D` such
that no fraction `n'/d'` with `d' ≤ D` has a strictly smaller absolute
error `|f − n'/d'|`; every denominator produced at the chip's limit
`D = 1048575` is at most `1048575`; and for `f = 0.3`, `D = 10` the result
is exactly `3/10`. -/
theorem C1_farey_optimal :
    (∀ (f : ℚ) (D : ℕ), 0 < f → f < 1 → 2 ≤ D →
      1 ≤ (farey_fraction f D).2 ∧ (farey_fraction f D).2 ≤ D ∧
      ∀ (p : ℤ) (q : ℕ), 1 ≤ q → q ≤ D →
        |f - ((farey_fraction f D).1 : ℚ) / ((farey_fraction f D).2 : ℚ)| ≤
          |f - (p : ℚ) / (q : ℚ)|) ∧
    (∀ f : ℚ, (farey_fraction f 1048575).2 ≤ 1048575) ∧
    farey_fraction (3 / 10 : ℚ) 10 = (3, 10) := by
  refine ⟨?_, ?_, ?_⟩
  · intro f D h0 h1 hD
    obtain ⟨hpos, hle, hopt⟩ := farey_best f D h0 h1 hD
    exact ⟨hpos, hle, fun p q hq hqD => hopt p q hq hqD⟩
  · intro f
    have := (farey_fraction_bounds f 1048575).2.2
    simpa using this
  · have h : (3 / 10 : ℚ) = mkRat 3 10 := by
      rw [Rat.mkRat_eq_divInt, Rat.divInt_eq_div]
      norm_num
    rw [h]
    decide

/-- Witness for C1 at `f = 3/10`, `D = 10`, compared against `1/2`. -/
theorem C1_farey_optimal_witness :
    0 < (mkRat 3 10 : ℚ) ∧ (mkRat 3 10 : ℚ) < 1 ∧ (2 : ℕ) ≤ 10 ∧
    (1 : ℕ) ≤ 2 ∧ (2 : ℕ) ≤ 10 ∧
    |mkRat 3 10 - ((farey_fraction (mkRat 3 10) 10).1 : ℚ) /
        ((farey_fraction (mkRat 3 10) 10).2 : ℚ)| ≤
      |mkRat 3 10 - ((1 : ℤ) : ℚ) / ((2 : ℕ) : ℚ)| :=
  ⟨by decide, by decide, by decide, by decide, by decide,
    (C1_farey_optimal.1 (mkRat 3 10) 10 (by decide) (by decide) (by decide)).2.2
      1 2 (by decide) (by decide)⟩

/-- C2 counterexample: at the pre-scaled master frequency 600000 Hz the
code's divider `pllOmd` is 1002 while the spec's
`round_up_to_even(600000000/f + 3)` is 1004: the divider rounds **down**
to even, not up. -/
theorem C2_omd_counterexample :
    pllOmd 600000 = 1002 ∧ roundUpToEven (600000000 / 600000 + 3) = 1004 ∧
    pllOmd 600000 ≠ roundUpToEven (600000000 / 600000 + 3) :=
  ⟨by decide, by decide, by decide⟩

/-- C2 (amended): in the PLL planning step the even pre-scale divider is
`600000000 div f + 3` rounded **down** to even (low bit cleared), and the
step fails with the OMD-out-of-range error exactly when that divider is
outside `[8, 2047]`. -/
theorem C2_omd_amended (s : Si5351) (i f : ℕ)
    (hm : s.clk_pll.getD i 0 < 8)
    (hf : s.freq.getD (s.clk_pll.getD i 0) 0 = f)
    (hlo : 8000 ≤ f) (hhi : f ≤ 150000000) :
    pllOmd (pllPrescale 64 f) = 2 * ((600000000 / pllPrescale 64 f + 3) / 2) ∧
    (pllStage s i = .error .omdOutOfRange ↔
      (pllOmd (pllPrescale 64 f) < 8 ∨ pllOmd (pllPrescale 64 f) > 2047)) := by
  constructor
  · exact pllOmd_eq _ (pllPrescale_ge_of_freq f hlo)
  · have h := pllStage_omd_iff s i hm (by omega) (by omega)
    rw [hf] at h
    exact h

/-- Witness for C2's amended statement on the demo state (master output 0
at 510001 Hz). -/
theorem C2_omd_amended_witness :
    demoState.clk_pll.getD 0 0 < 8 ∧
    demoState.freq.getD (demoState.clk_pll.getD 0 0) 0 = 510001 ∧
    (pllOmd (pllPrescale 64 510001) = 2 * ((600000000 / pllPrescale 64 510001 + 3) / 2) ∧
     (pllStage demoState 0 = .error .omdOutOfRange ↔
       (pllOmd (pllPrescale 64 510001) < 8 ∨ pllOmd (pllPrescale 64 510001) > 2047))) :=
  ⟨by decide, by decide,
    C2_omd_amended demoState 0 510001 (by decide) (by decide) (by decide) (by decide)⟩

/-- C3 counterexample: for `f = 7/12`, `D = 4` the search terminates with
bounds `1/2` and `2/3` whose errors tie, and `farey_fraction` returns the
**upper** bound `2/3`, not the lower bound `1/2` the claim names. -/
theorem C3_tie_counterexample :
    fareyLoop (mkRat 7 12) 4 4 0 1 1 1 = ((1, 2), (2, 3)) ∧
    |mkRat 7 12 - ((1 : ℕ) : ℚ) / ((2 : ℕ) : ℚ)| =
      |mkRat 7 12 - ((2 : ℕ) : ℚ) / ((3 : ℕ) : ℚ)| ∧
    farey_fraction (mkRat 7 12) 4 = (2, 3) ∧ ((2 : ℕ), (3 : ℕ)) ≠ ((1 : ℕ), (2 : ℕ)) := by
  refine ⟨by decide, ?_, by decide, by decide⟩
  have h : (mkRat 7 12 : ℚ) = 7 / 12 := by
    rw [Rat.mkRat_eq_divInt, Rat.divInt_eq_div]
    norm_num
  rw [h]
  push_cast
  rw [abs_of_nonneg (by norm_num), abs_of_nonpos (by norm_num)]
  norm_num

/-- C3 (amended): when the final bounds of the Stern–Brocot search have
equal absolute errors the approximator returns the **upper** bound `c/d`,
because the strict less-than comparison on the lower bound's error fails
at equality. -/
theorem C3_tie_upper (f : ℚ) (D : ℕ) (hg : ¬(f ≤ 0 ∨ 1 ≤ f ∨ D ≤ 1))
    (htie : |f - ((fareyLoop f D D 0 1 1 1).1.1 : ℚ) / ((fareyLoop f D D 0 1 1 1).1.2 : ℚ)| =
      |f - ((fareyLoop f D D 0 1 1 1).2.1 : ℚ) / ((fareyLoop f D D 0 1 1 1).2.2 : ℚ)|) :
    farey_fraction f D = (fareyLoop f D D 0 1 1 1).2 := by
  rw [farey_fraction_eq f D hg, if_neg]
  rw [htie]
  exact lt_irrefl _

/-- Witness for C3's amended statement at `f = 7/12`, `D = 4`. -/
theorem C3_tie_upper_witness :
    farey_fraction (mkRat 7 12) 4 = (fareyLoop (mkRat 7 12) 4 4 0 1 1 1).2 :=
  C3_tie_upper (mkRat 7 12) 4 (by decide) (by
    have heval : fareyLoop (mkRat 7 12) 4 4 0 1 1 1 = ((1, 2), (2, 3)) := by decide
    have h : (mkRat 7 12 : ℚ) = 7 / 12 := by
      rw [Rat.mkRat_eq_divInt, Rat.divInt_eq_div]
      norm_num
    rw [heval, h]
    push_cast
    rw [abs_of_nonneg (by norm_num), abs_of_nonpos (by norm_num)]
    norm_num)

/-- C4 counterexample: with auto-apply enabled and a valid index, requesting
exactly 150 MHz on an output designated PLL master returns the OMD error,
so the claim that 150000000 Hz succeeds for every such state is false. -/
theorem C4_boundary_counterexample :
    demoState.config = true ∧
    (si5351_set demoState 1 0 150000000 0 false true).2.2 =
      some (ApiError.cfg ConfigError.omdOutOfRange) :=
  ⟨by decide, by decide⟩

/-- C4 (amended): with auto-apply enabled, in a state whose PLL planning
succeeds (valid master output 0 at 510001 Hz), setting output 1 to 7999 or
150000001 Hz fails with the frequency-range error while 8000 and
150000000 Hz succeed — the `[8 kHz, 150 MHz]` check is boundary-inclusive —
but 150000000 Hz fails with the OMD error when the target output is also
made the PLL master. -/
theorem C4_boundaries :
    (si5351_set demoState 1 0 7999 0 false false).2.2 =
      some (ApiError.cfg ConfigError.frequencyOutOfRange) ∧
    (si5351_set demoState 1 0 8000 0 false false).2.2 = none ∧
    (si5351_set demoState 1 0 150000000 0 false false).2.2 = none ∧
    (si5351_set demoState 1 0 150000001 0 false false).2.2 =
      some (ApiError.cfg ConfigError.frequencyOutOfRange) ∧
    (si5351_set demoState 1 0 150000000 0 false true).2.2 =
      some (ApiError.cfg ConfigError.omdOutOfRange) :=
  ⟨by decide, by decide, by decide, by decide, by decide⟩

/-- C5: while auto-apply is suspended, `si5351_set` and
`si5351_set_disabled` update the in-memory state but emit no register
writes, and a following `si5351_write_batch` re-enables the flag and
performs exactly one full configuration pass over the accumulated state. -/
theorem C5_batch (s : Si5351) (hcfg : s.config = false)
    (out1 pll1 fr1 ph1 : ℕ) (inv1 m1 : Bool)
    (out2 pll2 fr2 ph2 : ℕ) (inv2 m2 : Bool)
    (clock : ℤ) (ds : ℕ)
    (h1 : out1 < 8) (h2 : out2 < 8)
    (hclock : clock = -1 ∨ (0 ≤ clock ∧ clock < 8)) :
    (si5351_set s out1 pll1 fr1 ph1 inv1 m1).2.1 = [] ∧
    (si5351_set s out1 pll1 fr1 ph1 inv1 m1).2.2 = none ∧
    (si5351_set s out1 pll1 fr1 ph1 inv1 m1).1.freq = s.freq.set out1 fr1 ∧
    (si5351_set s out1 pll1 fr1 ph1 inv1 m1).1.config = false ∧
    (si5351_set_disabled s clock ds).2.1 = [] ∧
    (si5351_set_disabled s clock ds).1.clk_dis =
      (if clock = -1 then List.replicate 8 ds else s.clk_dis.set clock.toNat ds) ∧
    (si5351_set (si5351_set s out1 pll1 fr1 ph1 inv1 m1).1
        out2 pll2 fr2 ph2 inv2 m2).2.1 = [] ∧
    (si5351_set (si5351_set s out1 pll1 fr1 ph1 inv1 m1).1
        out2 pll2 fr2 ph2 inv2 m2).1.freq = (s.freq.set out1 fr1).set out2 fr2 ∧
    si5351_write_batch (si5351_set (si5351_set s out1 pll1 fr1 ph1 inv1 m1).1
        out2 pll2 fr2 ph2 inv2 m2).1 =
      ((si5351_configure {(si5351_set (si5351_set s out1 pll1 fr1 ph1 inv1 m1).1
          out2 pll2 fr2 ph2 inv2 m2).1 with config := true}).1,
       (si5351_configure {(si5351_set (si5351_set s out1 pll1 fr1 ph1 inv1 m1).1
          out2 pll2 fr2 ph2 inv2 m2).1 with config := true}).2.1) ∧
    (si5351_write_batch (si5351_set (si5351_set s out1 pll1 fr1 ph1 inv1 m1).1
        out2 pll2 fr2 ph2 inv2 m2).1).1.config = true := by
  obtain ⟨e1, e2⟩ := set_batch_empty s out1 pll1 fr1 ph1 inv1 m1 hcfg h1
  obtain ⟨f1, _, _, _, _, f6⟩ := set_state_fields s out1 pll1 fr1 ph1 inv1 m1 h1
  have hcfg1 : (si5351_set s out1 pll1 fr1 ph1 inv1 m1).1.config = false := by
    rw [f6]; exact hcfg
  obtain ⟨e1', _⟩ := set_batch_empty _ out2 pll2 fr2 ph2 inv2 m2 hcfg1 h2
  obtain ⟨f1', _, _, _, _, _⟩ := set_state_fields
    (si5351_set s out1 pll1 fr1 ph1 inv1 m1).1 out2 pll2 fr2 ph2 inv2 m2 h2
  obtain ⟨d1, d2⟩ := set_disabled_batch s clock ds hcfg hclock
  refine ⟨e1, e2, f1, hcfg1, d1, d2, e1', ?_, rfl, ?_⟩
  · rw [f1', f1]
  · exact (configure_fields _).2.2.2.2.2.2.2.2.2.trans rfl

/-- Witness for C5 on the demo state put into batch mode. -/
theorem C5_batch_witness :
    (si5351_set (si5351_start_batch demoState) 2 0 1000000 0 false false).2.1 = [] ∧
    (si5351_set (si5351_start_batch demoState) 2 0 1000000 0 false false).2.2 = none :=
  ⟨(C5_batch (si5351_start_batch demoState) (by decide) 2 0 1000000 0 false false
      3 0 2000000 0 false false (-1) 0 (by decide) (by decide) (Or.inl rfl)).1,
   (C5_batch (si5351_start_batch demoState) (by decide) 2 0 1000000 0 false false
      3 0 2000000 0 false false (-1) 0 (by decide) (by decide) (Or.inl rfl)).2.1⟩

/-- C6: for every target and reference pair the stage divider calculator
produces exactly the spec's packed parameters
`p1 = (mult << 7) + ⌊128·num/den⌋ − 512`,
`p2 = (num << 7) − den·⌊128·num/den⌋`, `p3 = den` (32-bit arithmetic),
with `mult = target div reference` and `(num, den)` the rational
approximation of the fractional remainder at maximum denominator 1048575. -/
theorem C6_multisynth_params :
    ∀ f1 f2 : ℕ, si5351_calc_multisynth f1 f2 = specStageDivider f1 f2 :=
  calc_multisynth_eq_spec

/-- C7: when the configuration pass triggered by a valid `si5351_set` fails
validation, the in-memory state still holds the caller's requested
frequency, phase, invert flag, PLL assignment and master designation, and
the call returns an error. -/
theorem C7_retention (s : Si5351) (out pllv fr ph : ℕ) (inv m : Bool)
    (hWF : WF s) (hout : out < 8) (hpll : pllv < 2) (e : ConfigError)
    (hfail : (si5351_set s out pllv fr ph inv m).2.2 = some (.cfg e)) :
    (si5351_set s out pllv fr ph inv m).1.freq.getD out 0 = fr ∧
    (si5351_set s out pllv fr ph inv m).1.phase.getD out 0 = ph ∧
    (si5351_set s out pllv fr ph inv m).1.clk_invert.getD out false = inv ∧
    (si5351_set s out pllv fr ph inv m).1.pll.getD out 0 = pllv ∧
    (m = true → (si5351_set s out pllv fr ph inv m).1.clk_pll.getD pllv 0 = out) ∧
    (si5351_set s out pllv fr ph inv m).2.2 ≠ none := by
  obtain ⟨hf, hp, hpl, hinv, hcp, _⟩ := set_state_fields s out pllv fr ph inv m hout
  obtain ⟨h1, h2, h3, h4, _, h6, _, _⟩ := hWF
  refine ⟨?_, ?_, ?_, ?_, ?_, ?_⟩
  · rw [hf]; exact getD_set_self _ _ _ (by omega)
  · rw [hp]; exact getD_set_self _ _ _ (by omega)
  · rw [hinv]; exact getD_set_self_bool _ _ _ (by omega)
  · rw [hpl]; exact getD_set_self _ _ _ (by omega)
  · intro hm
    rw [hcp, if_pos hm]
    exact getD_set_self _ _ _ (by omega)
  · rw [hfail]
    simp

/-- Witness for C7: a failing request (7999 Hz) on the demo state. -/
theorem C7_retention_witness :
    (si5351_set demoState 1 0 7999 5 true false).1.freq.getD 1 0 = 7999 ∧
    (si5351_set demoState 1 0 7999 5 true false).1.phase.getD 1 0 = 5 ∧
    (si5351_set demoState 1 0 7999 5 true false).1.clk_invert.getD 1 false = true ∧
    (si5351_set demoState 1 0 7999 5 true false).1.pll.getD 1 0 = 0 ∧
    (false = true → (si5351_set demoState 1 0 7999 5 true false).1.clk_pll.getD 0 0 = 1) ∧
    (si5351_set demoState 1 0 7999 5 true false).2.2 ≠ none :=
  C7_retention demoState 1 0 7999 5 true false (by decide) (by decide) (by decide)
    ConfigError.frequencyOutOfRange (by decide)

/-- C8: `si5351_set_disabled` returns success (0) for every in-range clock
argument, whatever the triggered pass does, and `si5351_write_batch`
returns only the state and the writes of its single pass — in both
operations the pass's error is discarded and invisible to the caller. -/
theorem C8_swallowed_errors :
    (∀ (s : Si5351) (clock : ℤ) (ds : ℕ),
      clock = -1 ∨ (0 ≤ clock ∧ clock < 8) →
      (si5351_set_disabled s clock ds).2.2 = none) ∧
    (∀ s : Si5351, si5351_write_batch s =
      ((si5351_configure {s with config := true}).1,
       (si5351_configure {s with config := true}).2.1)) := by
  constructor
  · intro s clock ds hc
    rcases hc with rfl | ⟨hge, hlt⟩
    · rw [si5351_set_disabled, if_pos rfl]
    · rw [si5351_set_disabled, if_neg (by omega), if_pos ⟨hge, hlt⟩]
  · intro s
    rfl

/-- Witness for C8: on the fresh init state (whose configuration pass
really fails with a frequency error) `si5351_set_disabled` still returns
success. -/
theorem C8_swallowed_errors_witness :
    (si5351_set_disabled (si5351_init 25000000 128).1 (-1) 1).2.2 = none ∧
    (si5351_configure (si5351_init 25000000 128).1).2.2 =
      some ConfigError.frequencyOutOfRange :=
  ⟨C8_swallowed_errors.1 (si5351_init 25000000 128).1 (-1) 1 (Or.inl rfl), by decide⟩

/-- C9: after `si5351_init` every drive-strength field is zero (the 2 mA
level) and no public operation modifies it, so in every reachable state
every write a configuration pass emits to a control register (16-23) has
its two drive bits 00. -/
theorem C9_drive_zero (s : Si5351) (h : Reachable s) :
    s.clk_drive = List.replicate 8 0 ∧
    ∀ w ∈ (si5351_configure s).2.1, 16 ≤ w.1 → w.1 ≤ 23 → w.2 &&& 0x03 = 0 := by
  have hd := reachable_clk_drive s h
  refine ⟨hd, configure_ctrl_writes s ?_⟩
  intro i
  rw [hd]
  exact getD_replicate_zero 8 i

/-- Witness for C9 at the freshly initialised state. -/
theorem C9_drive_zero_witness :
    (si5351_init 25000000 128).1.clk_drive = List.replicate 8 0 ∧
    ∀ w ∈ (si5351_configure (si5351_init 25000000 128).1).2.1,
      16 ≤ w.1 → w.1 ≤ 23 → w.2 &&& 0x03 = 0 :=
  C9_drive_zero _ (Reachable.init 25000000 128)

/-- C10: `si5351_set` stores any phase value unchanged (no validation is
applied to it), and every write a configuration pass emits to a phase
register (165-172) is the stored phase of that output reduced modulo 128
(masked to its low 7 bits). -/
theorem C10_phase (s : Si5351) (out pllv fr ph : ℕ) (inv m : Bool)
    (hWF : WF s) (hout : out < 8) :
    (si5351_set s out pllv fr ph inv m).1.phase.getD out 0 = ph ∧
    ∀ w ∈ (si5351_configure s).2.1, 165 ≤ w.1 → w.1 ≤ 172 →
      w.2 = s.phase.getD (w.1 - 165) 0 % 128 := by
  obtain ⟨_, hp, _, _, _, _⟩ := set_state_fields s out pllv fr ph inv m hout
  obtain ⟨_, h2, _, _, _, _, _, _⟩ := hWF
  refine ⟨?_, configure_phase_writes s⟩
  rw [hp]
  exact getD_set_self _ _ _ (by omega)

/-- Witness for C10 on the demo state with a full 32-bit phase value. -/
theorem C10_phase_witness :
    (si5351_set demoState 1 0 8000 4294967295 false false).1.phase.getD 1 0 = 4294967295 ∧
    ∀ w ∈ (si5351_configure demoState).2.1, 165 ≤ w.1 → w.1 ≤ 172 →
      w.2 = demoState.phase.getD (w.1 - 165) 0 % 128 :=
  C10_phase demoState 1 0 8000 4294967295 false false (by decide) (by decide)
